import Mathlib

/-!
Verification of the telegram-bridge program (src/telegram-bridge/main.go and the
variant src/unnamed/part_000) against its natural-language specification.

The development shallowly embeds the program:

* a JSON value type `Json`, a JSON parser `parseJson` and a renderer
  `renderJsonIndent` modelling Go's `encoding/json` (`json.Unmarshal` and
  `json.MarshalIndent(v, "", "  ")`, including Go's HTML escaping and the
  base64 encoding of `[]byte` fields);
* the record types `SessionData` and `ExportedSession` of main.go lines 18-32;
* `exportSession` (main.go lines 148-182) over an explicit file system
  `Fs := String → Option String`;
* `runMain` (main.go lines 34-145), a trace-producing function over a `World`
  that supplies the results of the external effects (configuration load,
  directory creation, the stream of `client.Auth().Status` results, the file
  system, write permissions, `client.Self`); the QR-polling loop is modelled by
  the fuelled `pollLoop`, where exhausted fuel corresponds to a run that is
  still waiting for authorization.

Machine integers (`int`, `int64`) are modelled by `Int`; byte strings by
`List Nat` with values below 256.  JSON numbers are modelled as integers: the
four session fields are integral, and a fractional number makes
`json.Unmarshal` into the integer-typed struct fail exactly as a parse
failure does here.  `fmt.Sscan` of `api_id` is modelled for decimal input.
-/

/-- JSON values, as produced by Go's `encoding/json`. -/
inductive Json where
  | null
  | bool (b : Bool)
  | num (n : Int)
  | str (s : String)
  | arr (xs : List Json)
  | obj (fields : List (String × Json))
deriving Repr, Inhabited

/-- The base64 standard alphabet used by `encoding/base64.StdEncoding`,
which `encoding/json` uses for `[]byte` values. -/
def b64Chars : List Char :=
  ['A', 'B', 'C', 'D', 'E', 'F', 'G', 'H', 'I', 'J', 'K', 'L', 'M',
   'N', 'O', 'P', 'Q', 'R', 'S', 'T', 'U', 'V', 'W', 'X', 'Y', 'Z',
   'a', 'b', 'c', 'd', 'e', 'f', 'g', 'h', 'i', 'j', 'k', 'l', 'm',
   'n', 'o', 'p', 'q', 'r', 's', 't', 'u', 'v', 'w', 'x', 'y', 'z',
   '0', '1', '2', '3', '4', '5', '6', '7', '8', '9', '+', '/']

/-- The base64 digit with value `n`. -/
def b64Char (n : Nat) : Char := b64Chars.getD n 'A'

/-- Index of a character in a list (used as the base64 digit value). -/
def b64Index (c : Char) : List Char → Option Nat
  | [] => none
  | x :: xs => if x = c then some 0 else (b64Index c xs).map (· + 1)

/-- Value of a base64 digit, `none` for characters outside the alphabet. -/
def b64Value (c : Char) : Option Nat := b64Index c b64Chars

/-- Standard base64 encoding with padding of a byte sequence
(`base64.StdEncoding.EncodeToString`).  The `% 256` reflects that Go bytes
are machine bytes. -/
def base64Encode : List Nat → String
  | [] => ""
  | [a] =>
    String.mk [b64Char (a % 256 / 4), b64Char (a % 256 % 4 * 16), '=', '=']
  | [a, b] =>
    String.mk [b64Char (a % 256 / 4), b64Char (a % 256 % 4 * 16 + b % 256 / 16),
               b64Char (b % 256 % 16 * 4), '=']
  | a :: b :: c :: rest =>
    String.mk [b64Char (a % 256 / 4), b64Char (a % 256 % 4 * 16 + b % 256 / 16),
               b64Char (b % 256 % 16 * 4 + c % 256 / 64), b64Char (c % 256 % 64)]
      ++ base64Encode rest

/-- Standard base64 decoding (`base64.StdEncoding.DecodeString`): groups of
four digits, padding only at the end.  Like Go's default (non-strict)
decoder, trailing bits of a padded group are ignored. -/
def base64DecodeChars : List Char → Option (List Nat)
  | [] => some []
  | a :: b :: c :: d :: rest =>
    match b64Value a, b64Value b with
    | some va, some vb =>
      if c = '=' then
        if d = '=' then
          if rest.isEmpty then some [va * 4 + vb / 16] else none
        else none
      else
        match b64Value c with
        | some vc =>
          if d = '=' then
            if rest.isEmpty then some [va * 4 + vb / 16, vb % 16 * 16 + vc / 4]
            else none
          else
            match b64Value d with
            | some vd =>
              (base64DecodeChars rest).map
                (fun tail => (va * 4 + vb / 16) :: (vb % 16 * 16 + vc / 4) ::
                             (vc % 4 * 64 + vd) :: tail)
            | none => none
        | none => none
    | _, _ => none
  | _ => none

/-- Base64 decoding of a string. -/
def base64Decode (s : String) : Option (List Nat) := base64DecodeChars s.toList

/-- JSON whitespace. -/
def jsonWs (c : Char) : Bool := c == ' ' || c == '\t' || c == '\n' || c == '\r'

/-- Drop leading JSON whitespace. -/
def skipWs (cs : List Char) : List Char := cs.dropWhile jsonWs

/-- The opening-brace character of a JSON object. -/
def lbrace : Char := Char.ofNat 123

/-- The closing-brace character of a JSON object. -/
def rbrace : Char := Char.ofNat 125

/-- Value of a hexadecimal digit. -/
def hexVal (c : Char) : Option Nat :=
  if '0' ≤ c ∧ c ≤ '9' then some (c.toNat - 48)
  else if 'a' ≤ c ∧ c ≤ 'f' then some (c.toNat - 87)
  else if 'A' ≤ c ∧ c ≤ 'F' then some (c.toNat - 55)
  else none

/-- Short escape sequences of JSON strings. -/
def escChar (e : Char) : Option Char :=
  if e = '"' then some '"'
  else if e = '\\' then some '\\'
  else if e = '/' then some '/'
  else if e = 'b' then some (Char.ofNat 8)
  else if e = 'f' then some (Char.ofNat 12)
  else if e = 'n' then some '\n'
  else if e = 'r' then some '\r'
  else if e = 't' then some '\t'
  else none

/-- Parse the body of a JSON string after the opening quote, returning the
string and the remaining input.  Unescaped control characters are rejected,
as in Go's decoder. -/
def parseStringBody : List Char → Option (String × List Char)
  | [] => none
  | c :: rest =>
    if c = '"' then some ("", rest)
    else if c = '\\' then
      match rest with
      | [] => none
      | e :: rest2 =>
        if e = 'u' then
          match rest2 with
          | h1 :: h2 :: h3 :: h4 :: rest3 =>
            match hexVal h1, hexVal h2, hexVal h3, hexVal h4 with
            | some a, some b, some c2, some d =>
              (parseStringBody rest3).map (fun p =>
                (String.singleton (Char.ofNat (a * 4096 + b * 256 + c2 * 16 + d)) ++ p.1,
                 p.2))
            | _, _, _, _ => none
          | _ => none
        else
          match escChar e with
          | some ec =>
            (parseStringBody rest2).map (fun p => (String.singleton ec ++ p.1, p.2))
          | none => none
    else if c.toNat < 32 then none
    else (parseStringBody rest).map (fun p => (String.singleton c ++ p.1, p.2))

/-- Numeric value of a list of decimal digits. -/
def digitsToNat (ds : List Char) : Nat :=
  ds.foldl (fun a c => a * 10 + (c.toNat - 48)) 0

/-- Parse an unsigned JSON integer (no leading zeros; a following `.`, `e` or
`E` is rejected: the session fields are integers, and a fractional value
fails `json.Unmarshal` into the integer-typed struct just as a parse error
does here). -/
def parseNumCore (cs : List Char) : Option (Nat × List Char) :=
  let ds := cs.takeWhile Char.isDigit
  let rest := cs.drop ds.length
  if ds.isEmpty then none
  else if 1 < ds.length ∧ ds.headD '0' = '0' then none
  else
    match rest with
    | c :: _ =>
      if c == '.' || c == 'e' || c == 'E' then none else some (digitsToNat ds, rest)
    | [] => some (digitsToNat ds, rest)

/-- Parse a JSON number (optional minus sign). -/
def parseNumber (cs : List Char) : Option (Json × List Char) :=
  match cs with
  | '-' :: cs1 => (parseNumCore cs1).map (fun p => (Json.num (-(p.1 : Int)), p.2))
  | _ => (parseNumCore cs).map (fun p => (Json.num (p.1 : Int), p.2))

mutual

/-- Parse one JSON value (fuelled; one unit of fuel per nesting level). -/
def parseValue : Nat → List Char → Option (Json × List Char)
  | 0, _ => none
  | fuel + 1, cs =>
    match skipWs cs with
    | [] => none
    | c :: rest =>
      if c = '"' then (parseStringBody rest).map (fun p => (Json.str p.1, p.2))
      else if c = lbrace then
        (parseMembers fuel rest true).map (fun p => (Json.obj p.1, p.2))
      else if c = '[' then
        (parseElements fuel rest true).map (fun p => (Json.arr p.1, p.2))
      else if c = 'n' then
        match rest with
        | 'u' :: 'l' :: 'l' :: r => some (Json.null, r)
        | _ => none
      else if c = 't' then
        match rest with
        | 'r' :: 'u' :: 'e' :: r => some (Json.bool true, r)
        | _ => none
      else if c = 'f' then
        match rest with
        | 'a' :: 'l' :: 's' :: 'e' :: r => some (Json.bool false, r)
        | _ => none
      else parseNumber (c :: rest)

/-- Parse the members of a JSON object after the opening brace; `first` is
true before any member has been read (only then may the object close
immediately). -/
def parseMembers : Nat → List Char → Bool → Option (List (String × Json) × List Char)
  | 0, _, _ => none
  | fuel + 1, cs, first =>
    match skipWs cs with
    | [] => none
    | c :: rest =>
      if first ∧ c = rbrace then some ([], rest)
      else if c = '"' then
        match parseStringBody rest with
        | none => none
        | some (key, rest1) =>
          match skipWs rest1 with
          | ':' :: rest2 =>
            match parseValue fuel rest2 with
            | none => none
            | some (v, rest3) =>
              match skipWs rest3 with
              | c2 :: rest4 =>
                if c2 = ',' then
                  (parseMembers fuel rest4 false).map (fun p => ((key, v) :: p.1, p.2))
                else if c2 = rbrace then some ([(key, v)], rest4)
                else none
              | [] => none
          | _ => none
      else none

/-- Parse the elements of a JSON array after the opening bracket. -/
def parseElements : Nat → List Char → Bool → Option (List Json × List Char)
  | 0, _, _ => none
  | fuel + 1, cs, first =>
    match skipWs cs with
    | [] => none
    | c :: rest =>
      if first ∧ c = ']' then some ([], rest)
      else
        match parseValue fuel (c :: rest) with
        | none => none
        | some (v, rest1) =>
          match skipWs rest1 with
          | c2 :: rest2 =>
            if c2 = ',' then
              (parseElements fuel rest2 false).map (fun p => (v :: p.1, p.2))
            else if c2 = ']' then some ([v], rest2)
            else none
          | [] => none

end

/-- Parse a whole JSON document (`json.Unmarshal` accepts exactly one value
followed by whitespace). -/
def parseJson (s : String) : Option Json :=
  match parseValue (s.length + 1) s.toList with
  | some (j, rest) => if (skipWs rest).isEmpty then some j else none
  | none => none

/-- Lowercase hexadecimal digit. -/
def hexDigitChar (n : Nat) : Char :=
  if n < 10 then Char.ofNat (48 + n) else Char.ofNat (87 + n % 16)

/-- Escape one character inside a JSON string the way Go's
`encoding/json` encoder does (short escapes for `\"`, `\\`, `\n`, `\r`,
`\t`; `\u00XX` for other control characters; HTML-safe escaping of `<`,
`>`, `&`; the line separators U+2028 and U+2029). -/
def goEscapeChar (c : Char) : String :=
  if c = '"' then "\\\""
  else if c = '\\' then "\\\\"
  else if c = '\n' then "\\n"
  else if c = '\r' then "\\r"
  else if c = '\t' then "\\t"
  else if c = '<' then "\\u003c"
  else if c = '>' then "\\u003e"
  else if c = '&' then "\\u0026"
  else if c.toNat < 32 then
    String.mk ['\\', 'u', '0', '0', hexDigitChar (c.toNat / 16), hexDigitChar (c.toNat % 16)]
  else if c = Char.ofNat 8232 then "\\u2028"
  else if c = Char.ofNat 8233 then "\\u2029"
  else String.singleton c

/-- Escape a string for inclusion in Go-encoded JSON. -/
def goEscapeString (s : String) : String := String.join (s.toList.map goEscapeChar)

/-- `n` levels of the two-space indentation of
`json.MarshalIndent(v, "", "  ")`. -/
def indentStr (n : Nat) : String := String.join (List.replicate n "  ")

mutual

/-- Render a JSON value at indentation `level`, as
`json.MarshalIndent(v, "", "  ")` does (empty composites stay compact,
members are separated by `",\n"`, keys by `": "`). -/
def renderJson : Nat → Json → String
  | _, .null => "null"
  | _, .bool b => if b then "true" else "false"
  | _, .num n => toString n
  | _, .str s => "\"" ++ goEscapeString s ++ "\""
  | _, .arr [] => "[]"
  | level, .arr (x :: xs) =>
    "[\n" ++ renderElems (level + 1) (x :: xs) ++ "\n" ++ indentStr level ++ "]"
  | _, .obj [] => String.singleton lbrace ++ String.singleton rbrace
  | level, .obj (f :: fs) =>
    String.singleton lbrace ++ "\n" ++ renderFields (level + 1) (f :: fs) ++ "\n" ++
      indentStr level ++ String.singleton rbrace

/-- Render array elements, one per line. -/
def renderElems : Nat → List Json → String
  | _, [] => ""
  | level, [x] => indentStr level ++ renderJson level x
  | level, x :: y :: xs =>
    indentStr level ++ renderJson level x ++ ",\n" ++ renderElems level (y :: xs)

/-- Render object members, one per line. -/
def renderFields : Nat → List (String × Json) → String
  | _, [] => ""
  | level, [(k, v)] =>
    indentStr level ++ "\"" ++ goEscapeString k ++ "\": " ++ renderJson level v
  | level, (k, v) :: f :: fs =>
    indentStr level ++ "\"" ++ goEscapeString k ++ "\": " ++ renderJson level v ++
      ",\n" ++ renderFields level (f :: fs)

end

/-- `json.MarshalIndent(v, "", "  ")` of a JSON value. -/
def renderJsonIndent (j : Json) : String := renderJson 0 j

/-- main.go lines 26-32: the structure `json.Unmarshal` fills from the
session file. -/
structure SessionData where
  DC : Int
  Addr : String
  AuthKey : List Nat
  UserID : Int
deriving Repr, DecidableEq, Inhabited

/-- main.go lines 18-24: the structure holding essential session data for
export. -/
structure ExportedSession where
  DC : Int
  Addr : String
  AuthKey : List Nat
  UserID : Int
deriving Repr, DecidableEq, Inhabited

/-- The zero value `json.Unmarshal` starts from for `SessionData`. -/
def zeroSessionData : SessionData := { DC := 0, Addr := "", AuthKey := [], UserID := 0 }

/-- Apply one JSON object member to a `SessionData` under Go's
`json.Unmarshal` rules: a matching key must carry a value of the field's
type (a base64 string for the `[]byte` field), `null` leaves the field
unchanged, unknown keys are ignored, later duplicates overwrite. -/
def applyField (sd : SessionData) (kv : String × Json) : Option SessionData :=
  if kv.1 = "dc_id" then
    match kv.2 with
    | .num n => some { sd with DC := n }
    | .null => some sd
    | _ => none
  else if kv.1 = "addr" then
    match kv.2 with
    | .str s => some { sd with Addr := s }
    | .null => some sd
    | _ => none
  else if kv.1 = "auth_key" then
    match kv.2 with
    | .str s => (base64Decode s).map (fun bytes => { sd with AuthKey := bytes })
    | .null => some sd
    | _ => none
  else if kv.1 = "user_id" then
    match kv.2 with
    | .num n => some { sd with UserID := n }
    | .null => some sd
    | _ => none
  else some sd

/-- `json.Unmarshal` of a JSON value into `SessionData`: the document must
be an object; its members are applied in order. -/
def decodeSessionData : Json → Option SessionData
  | .obj fields => fields.foldlM applyField zeroSessionData
  | _ => none

/-- main.go line 157: `json.Unmarshal(sessionFileData, &sessionData)`. -/
def unmarshalSessionData (raw : String) : Option SessionData :=
  (parseJson raw).bind decodeSessionData

/-- main.go lines 161-170: building `ExportedSession` from the parsed
session data and `json.MarshalIndent(exported, "", "  ")`. -/
def marshalExported (e : ExportedSession) : Json :=
  Json.obj [("dc_id", Json.num e.DC), ("addr", Json.str e.Addr),
            ("auth_key", Json.str (base64Encode e.AuthKey)),
            ("user_id", Json.num e.UserID)]

/-- A file system: file contents by path. -/
def Fs : Type := String → Option String

/-- `os.WriteFile`: replace the contents at one path. -/
def writeFs (fs : Fs) (p v : String) : Fs := fun q => if q = p then some v else fs q

/-- main.go lines 147-182: `exportSession` reads the session file, parses
it, and writes the re-marshalled four-field record to `exportPath`.
`writeOk` says which paths `os.WriteFile` can write (false models a write
error). -/
def exportSession (fs : Fs) (writeOk : String → Bool)
    (sessionFilePath exportPath : String) : Except String Unit × Fs :=
  match fs sessionFilePath with
  | none => (.error "failed to read session file", fs)
  | some sessionFileData =>
    match unmarshalSessionData sessionFileData with
    | none => (.error "failed to parse session data", fs)
    | some sessionData =>
      let exported : ExportedSession :=
        { DC := sessionData.DC, Addr := sessionData.Addr,
          AuthKey := sessionData.AuthKey, UserID := sessionData.UserID }
      let jsonData := renderJsonIndent (marshalExported exported)
      if writeOk exportPath then (.ok (), writeFs fs exportPath jsonData)
      else (.error "failed to write shared session file", fs)

/-- The two configuration values read from `config.ini` section
`[telegram]` (main.go lines 43-44); `gopkg.in/ini.v1` yields the empty
string for a missing key. -/
structure Config where
  api_id : String
  api_hash : String
deriving Repr, DecidableEq, Inhabited

/-- main.go line 47: `fmt.Sscan(apiIDStr, &apiID)` for decimal input —
skip leading spaces, then an optionally signed decimal integer; `none`
models the scan error (empty input or no digits). -/
def parseGoInt (s : String) : Option Int :=
  let cs := s.toList.dropWhile (fun c => c == ' ' || c == '\t' || c == '\n' || c == '\r')
  match cs with
  | '-' :: rest =>
    let ds := rest.takeWhile Char.isDigit
    if ds.isEmpty then none else some (-(digitsToNat ds : Int))
  | '+' :: rest =>
    let ds := rest.takeWhile Char.isDigit
    if ds.isEmpty then none else some ((digitsToNat ds : Int))
  | _ =>
    let ds := cs.takeWhile Char.isDigit
    if ds.isEmpty then none else some ((digitsToNat ds : Int))

/-- Result of one `client.Auth().Status(ctx)` call: an error, or the
`Authorized` flag. -/
inductive AuthResult where
  | err
  | ok (authorized : Bool)
deriving Repr, DecidableEq, Inhabited

/-- The externally observable steps of one run of `main` (main.go lines
34-145), in program order. -/
inductive Event where
  | loadConfig (path : String) (ok : Bool)
  | fatal (msg : String)
  | mkdirStore
  | createClient
  | authStatus (i : Nat) (r : AuthResult)
  | writeQR
  | sleep (secs : Nat)
  | callExport (sessionPath exportPath : String)
  | warnExportFailed
  | fetchSelf (ok : Bool)
  | waitForever
deriving Repr, DecidableEq, Inhabited

/-- Everything the environment decides during one run: the parsed
configuration by path (`ini.Load` reads and parses the file at its
argument), whether `os.MkdirAll` succeeds, the stream of auth-status
results, the file system, which paths `os.WriteFile` can write, and
whether `client.Self` succeeds. -/
structure World where
  ini : String → Option Config
  mkdirOk : Bool
  status : Nat → AuthResult
  fs : Fs
  writeOk : String → Bool
  selfOk : Bool

/-- main.go line 38: the configuration path of this variant. -/
def configPath : String := "telegram-bridge/config.ini"

/-- main.go line 57. -/
def sessionDir : String := "store"

/-- main.go lines 62/64: `fmt.Sprintf("%s/telegram.session", sessionDir)`. -/
def sessionFilePath : String := sessionDir ++ "/telegram.session"

/-- main.go line 65: `fmt.Sprintf("%s/shared_session.json", sessionDir)`. -/
def sharedSessionPath : String := sessionDir ++ "/shared_session.json"

/-- main.go line 87: the QR image path. -/
def qrCodePath : String := "store/qrcode.png"

/-- The events of `n` iterations of the waiting loop starting at status
index `i`: each iteration sleeps 3 seconds and queries the status once. -/
def loopEvents (status : Nat → AuthResult) (i n : Nat) : List Event :=
  match n with
  | 0 => []
  | m + 1 =>
    Event.sleep 3 :: Event.authStatus i (status i) :: loopEvents status (i + 1) m

/-- main.go lines 101-115: the authorization waiting loop.  Each iteration
sleeps 3 seconds, queries the status, continues on an error or an
unauthorized status, and breaks on an authorized one.  `fuel` bounds the
modelled iterations; `none` means the loop is still waiting when the fuel
is exhausted.  Returns the index of the succeeding query and the events. -/
def pollLoop (status : Nat → AuthResult) : Nat → Nat → Option Nat × List Event
  | 0, _ => (none, [])
  | fuel + 1, i =>
    let evs : List Event := [Event.sleep 3, Event.authStatus i (status i)]
    match status i with
    | .ok true => (some i, evs)
    | _ =>
      let r := pollLoop status fuel (i + 1)
      (r.1, evs ++ r.2)

/-- main.go lines 117-137 (tail shared by both branches): call
`exportSession`, log a warning if it fails, then fetch `client.Self`; on
success block on `ctx.Done()` forever, on failure the callback error makes
`client.Run` return it and `main` exits via `log.Fatalf`. -/
def exportAndFinish (w : World) (fs0 : Fs) (pre : List Event) : List Event × Fs :=
  let r := exportSession fs0 w.writeOk sessionFilePath sharedSessionPath
  let evs := pre ++ [Event.callExport sessionFilePath sharedSessionPath] ++
    (match r.1 with | .ok _ => [] | .error _ => [Event.warnExportFailed])
  if w.selfOk then (evs ++ [Event.fetchSelf true, Event.waitForever], r.2)
  else (evs ++ [Event.fetchSelf false, Event.fatal "Telegram client run failed"], r.2)

/-- main.go lines 85-97: the file system after the QR-code image write
(a write failure only logs). -/
def qrFs (w : World) : Fs :=
  if w.writeOk qrCodePath then writeFs w.fs qrCodePath "qr-image" else w.fs

/-- main.go lines 81-120: the unauthorized branch — write the QR code
image (a failure only logs), then wait in the polling loop; if the loop
observes authorization, export and finish. -/
def unauthorizedBranch (w : World) (fuel : Nat) (pre : List Event) : List Event × Fs :=
  match pollLoop w.status fuel 1 with
  | (none, evs) => (pre ++ [Event.writeQR] ++ evs, qrFs w)
  | (some _, evs) => exportAndFinish w (qrFs w) (pre ++ [Event.writeQR] ++ evs)

/-- main.go lines 34-145: one run of `main` as a trace of events and a
final file system.  `fuel` bounds the modelled iterations of the waiting
loop. -/
def runMain (w : World) (fuel : Nat) : List Event × Fs :=
  match w.ini configPath with
  | none => ([Event.loadConfig configPath false, Event.fatal "Failed to load config"], w.fs)
  | some cfg =>
    let pre := [Event.loadConfig configPath true]
    match parseGoInt cfg.api_id with
    | none => (pre ++ [Event.fatal "Invalid api_id"], w.fs)
    | some apiID =>
      if cfg.api_hash = "" ∨ apiID = 0 then
        (pre ++ [Event.fatal "api_id and api_hash must be set in config.ini"], w.fs)
      else if w.mkdirOk then
        let pre := pre ++ [Event.mkdirStore, Event.createClient]
        match w.status 0 with
        | .err =>
          (pre ++ [Event.authStatus 0 .err, Event.fatal "Telegram client run failed"], w.fs)
        | .ok true =>
          exportAndFinish w w.fs (pre ++ [Event.authStatus 0 (.ok true)])
        | .ok false =>
          unauthorizedBranch w fuel (pre ++ [Event.authStatus 0 (.ok false)])
      else
        (pre ++ [Event.fatal "Failed to create session directory"], w.fs)

/-- src/unnamed/part_000 line 33: the variant-B configuration path
(`ini.Load("config.ini")`). -/
def configPathB : String := "config.ini"

/-- Whether the main.go variant terminates fatally at configuration load
(main.go lines 38-41). -/
def configLoadFatalA (ini : String → Option Config) : Bool := (ini configPath).isNone

/-- Whether the part_000 variant terminates fatally at configuration load
(part_000 lines 33-36, identical code except for the path). -/
def configLoadFatalB (ini : String → Option Config) : Bool := (ini configPathB).isNone

/-- Is the event a call of `exportSession`? -/
def isExportEv : Event → Bool
  | .callExport _ _ => true
  | _ => false

/-- Is the event an auth-status query? -/
def isStatusEv : Event → Bool
  | .authStatus _ _ => true
  | _ => false

/-- Is the event the initial (pre-branch) auth-status query? -/
def isStatus0Ev : Event → Bool
  | .authStatus 0 _ => true
  | _ => false

/-- Is the event an auth-status query that succeeded with `Authorized`
true? -/
def isOkTrueStatus : Event → Bool
  | .authStatus _ (.ok true) => true
  | _ => false

/-- Is the event the creation of the session directory? -/
def isMkdirEv : Event → Bool
  | .mkdirStore => true
  | _ => false

/-- Is the event a fatal exit? -/
def isFatalEv : Event → Bool
  | .fatal _ => true
  | _ => false

/-- Number of `exportSession` calls in a trace. -/
def exportCount (tr : List Event) : Nat := (tr.filter isExportEv).length

/-- `precededBy p q tr` holds when every event satisfying `q` has an
earlier event satisfying `p`. -/
def precededBy (p q : Event → Bool) : List Event → Bool
  | [] => true
  | e :: rest => !q e && (p e || precededBy p q rest)

/-- The loaded configuration passes the validation of main.go lines
43-54: `api_id` scans as a nonzero integer and `api_hash` is nonempty. -/
def ConfigOk (w : World) : Prop :=
  ∃ cfg n, w.ini configPath = some cfg ∧ parseGoInt cfg.api_id = some n ∧
    ¬(cfg.api_hash = "" ∨ n = 0)

/-- The run gets past the authorization branch: configuration and session
directory succeed, and either the initial status is authorized or the
waiting loop observes authorization within the modelled iterations. -/
def BranchCompleted (w : World) (fuel : Nat) : Prop :=
  ConfigOk w ∧ w.mkdirOk = true ∧
    (w.status 0 = .ok true ∨
      (w.status 0 = .ok false ∧ (pollLoop w.status fuel 1).1.isSome = true))

theorem b64Value_b64Char : ∀ n, n < 64 → b64Value (b64Char n) = some n := by decide

theorem b64Char_ne_pad : ∀ n, n < 64 → b64Char n ≠ '=' := by decide

theorem b64Index_lt_length {c : Char} : ∀ {l : List Char} {v : Nat},
    b64Index c l = some v → v < l.length := by
  intro l
  induction l with
  | nil => intro v h; simp [b64Index] at h
  | cons x xs ih =>
    intro v h
    simp only [b64Index] at h
    split at h
    · simp only [Option.some.injEq] at h
      simp [← h]
    · cases hx : b64Index c xs with
      | none => simp [hx] at h
      | some u =>
        simp only [hx, Option.map_some', Option.some.injEq] at h
        have := ih hx
        simp only [List.length_cons]
        omega

theorem b64Value_lt {c : Char} {v : Nat} (h : b64Value c = some v) : v < 64 :=
  b64Index_lt_length h

theorem toList_mk_append (l : List Char) (s : String) :
    (String.mk l ++ s).toList = l ++ s.toList := rfl

theorem base64DecodeChars_encode :
    ∀ k : List Nat, (∀ b ∈ k, b < 256) →
      base64DecodeChars (base64Encode k).toList = some k := by
  intro k
  induction k using base64Encode.induct with
  | case1 => intro _; rfl
  | case2 a =>
    intro h
    have ha : a < 256 := h a (by simp)
    simp only [base64Encode, Nat.mod_eq_of_lt ha]
    have h1 := b64Value_b64Char (a / 4) (by omega)
    have h2 := b64Value_b64Char (a % 4 * 16) (by omega)
    show base64DecodeChars [b64Char (a / 4), b64Char (a % 4 * 16), '=', '='] = some [a]
    simp only [base64DecodeChars, h1, h2, if_pos rfl, List.isEmpty_nil, if_true]
    have : a / 4 * 4 + a % 4 * 16 / 16 = a := by omega
    rw [this]
  | case3 a b =>
    intro h
    have ha : a < 256 := h a (by simp)
    have hb : b < 256 := h b (by simp)
    simp only [base64Encode, Nat.mod_eq_of_lt ha, Nat.mod_eq_of_lt hb]
    have h1 := b64Value_b64Char (a / 4) (by omega)
    have h2 := b64Value_b64Char (a % 4 * 16 + b / 16) (by omega)
    have h3 := b64Value_b64Char (b % 16 * 4) (by omega)
    have hne := b64Char_ne_pad (b % 16 * 4) (by omega)
    show base64DecodeChars
      [b64Char (a / 4), b64Char (a % 4 * 16 + b / 16), b64Char (b % 16 * 4), '='] =
      some [a, b]
    simp only [base64DecodeChars, h1, h2, h3, if_neg hne, if_pos rfl,
      List.isEmpty_nil, if_true]
    have e1 : a / 4 * 4 + (a % 4 * 16 + b / 16) / 16 = a := by omega
    have e2 : (a % 4 * 16 + b / 16) % 16 * 16 + b % 16 * 4 / 4 = b := by omega
    rw [e1, e2]
  | case4 a b c rest ih =>
    intro h
    have ha : a < 256 := h a (by simp)
    have hb : b < 256 := h b (by simp)
    have hc : c < 256 := h c (by simp)
    have hrest : ∀ x ∈ rest, x < 256 := fun x hx => h x (by simp [hx])
    simp only [base64Encode, Nat.mod_eq_of_lt ha, Nat.mod_eq_of_lt hb, Nat.mod_eq_of_lt hc]
    have h1 := b64Value_b64Char (a / 4) (by omega)
    have h2 := b64Value_b64Char (a % 4 * 16 + b / 16) (by omega)
    have h3 := b64Value_b64Char (b % 16 * 4 + c / 64) (by omega)
    have h4 := b64Value_b64Char (c % 64) (by omega)
    have hne3 := b64Char_ne_pad (b % 16 * 4 + c / 64) (by omega)
    have hne4 := b64Char_ne_pad (c % 64) (by omega)
    rw [toList_mk_append]
    show base64DecodeChars
      (b64Char (a / 4) :: b64Char (a % 4 * 16 + b / 16) ::
       b64Char (b % 16 * 4 + c / 64) :: b64Char (c % 64) ::
       (base64Encode rest).toList) = some (a :: b :: c :: rest)
    simp only [base64DecodeChars, h1, h2, h3, h4, if_neg hne3, if_neg hne4,
      ih hrest, Option.map_some]
    have e1 : a / 4 * 4 + (a % 4 * 16 + b / 16) / 16 = a := by omega
    have e2 : (a % 4 * 16 + b / 16) % 16 * 16 + (b % 16 * 4 + c / 64) / 4 = b := by omega
    have e3 : (b % 16 * 4 + c / 64) % 4 * 64 + c % 64 = c := by omega
    rw [e1, e2, e3]
    rfl

/-- Encoding then decoding a byte sequence is the identity: the
authentication key survives the export byte-for-byte. -/
theorem base64_roundtrip (k : List Nat) (h : ∀ b ∈ k, b < 256) :
    base64Decode (base64Encode k) = some k :=
  base64DecodeChars_encode k h


theorem base64DecodeChars_bytes_lt :
    ∀ (n : Nat) (cs : List Char) (k : List Nat), cs.length ≤ n →
      base64DecodeChars cs = some k → ∀ b ∈ k, b < 256 := by
  intro n
  induction n with
  | zero =>
    intro cs k hlen h b hb
    have hcs : cs = [] := List.eq_nil_of_length_eq_zero (Nat.le_zero.mp hlen)
    subst hcs
    rw [show base64DecodeChars [] = some [] from rfl] at h
    simp only [Option.some.injEq] at h
    rw [← h] at hb
    simp at hb
  | succ n ih =>
    intro cs k hlen h b hb
    rcases cs with _ | ⟨a1, _ | ⟨a2, _ | ⟨a3, _ | ⟨a4, rest⟩⟩⟩⟩
    · rw [show base64DecodeChars [] = some [] from rfl] at h
      simp only [Option.some.injEq] at h
      rw [← h] at hb
      simp at hb
    · rw [show base64DecodeChars [a1] = none from rfl] at h
      simp at h
    · rw [show base64DecodeChars [a1, a2] = none from rfl] at h
      simp at h
    · rw [show base64DecodeChars [a1, a2, a3] = none from rfl] at h
      simp at h
    · have hrest : rest.length ≤ n := by
        simp only [List.length_cons] at hlen
        omega
      cases hva : b64Value a1 with
      | none => simp [base64DecodeChars, hva] at h
      | some va =>
      cases hvb : b64Value a2 with
      | none => simp [base64DecodeChars, hva, hvb] at h
      | some vb =>
      have hva64 := b64Value_lt hva
      have hvb64 := b64Value_lt hvb
      by_cases h3 : a3 = '='
      · by_cases h4 : a4 = '='
        · by_cases hemp : rest.isEmpty
          · simp only [base64DecodeChars, hva, hvb, h3, h4, hemp, if_true,
              Option.some.injEq] at h
            rw [← h] at hb
            simp only [List.mem_singleton] at hb
            omega
          · simp [base64DecodeChars, hva, hvb, h3, h4, hemp] at h
        · simp [base64DecodeChars, hva, hvb, h3, h4] at h
      · cases hvc : b64Value a3 with
        | none => simp [base64DecodeChars, hva, hvb, h3, hvc] at h
        | some vc =>
          have hvc64 := b64Value_lt hvc
          by_cases h4 : a4 = '='
          · by_cases hemp : rest.isEmpty
            · simp only [base64DecodeChars, hva, hvb, if_neg h3, hvc, h4, hemp,
                if_true, Option.some.injEq] at h
              rw [← h] at hb
              simp only [List.mem_cons, List.not_mem_nil, or_false] at hb
              rcases hb with hb | hb <;> omega
            · simp [base64DecodeChars, hva, hvb, h3, hvc, h4, hemp] at h
          · cases hvd : b64Value a4 with
            | none => simp [base64DecodeChars, hva, hvb, h3, hvc, h4, hvd] at h
            | some vd =>
              have hvd64 := b64Value_lt hvd
              cases htail : base64DecodeChars rest with
              | none => simp [base64DecodeChars, hva, hvb, h3, hvc, h4, hvd, htail] at h
              | some tail =>
                simp only [base64DecodeChars, hva, hvb, if_neg h3, hvc, if_neg h4, hvd,
                  htail, Option.map_some', Option.some.injEq] at h
                rw [← h] at hb
                simp only [List.mem_cons] at hb
                rcases hb with hb | hb | hb | hb
                · omega
                · omega
                · omega
                · exact ih rest tail hrest htail b hb

/-- Bytes produced by base64 decoding are machine bytes. -/
theorem base64Decode_bytes_lt {s : String} {k : List Nat}
    (h : base64Decode s = some k) : ∀ b ∈ k, b < 256 :=
  base64DecodeChars_bytes_lt s.toList.length s.toList k le_rfl h

theorem applyField_authKey_lt {sd sd' : SessionData} {k : String} {v : Json}
    (h0 : ∀ b ∈ sd.AuthKey, b < 256) (h : applyField sd (k, v) = some sd') :
    ∀ b ∈ sd'.AuthKey, b < 256 := by
  simp only [applyField] at h
  split at h
  · cases v with
    | num n => rw [← Option.some.inj h]; simpa using h0
    | null => rw [← Option.some.inj h]; exact h0
    | bool b => simp at h
    | str s => simp at h
    | arr xs => simp at h
    | obj fs => simp at h
  · split at h
    · cases v with
      | str s => rw [← Option.some.inj h]; simpa using h0
      | null => rw [← Option.some.inj h]; exact h0
      | bool b => simp at h
      | num n => simp at h
      | arr xs => simp at h
      | obj fs => simp at h
    · split at h
      · cases v with
        | str s =>
          simp only [Option.map_eq_some'] at h
          obtain ⟨bytes, hdec, hEq⟩ := h
          rw [← hEq]
          simpa using base64Decode_bytes_lt hdec
        | null => rw [← Option.some.inj h]; exact h0
        | bool b => simp at h
        | num n => simp at h
        | arr xs => simp at h
        | obj fs => simp at h
      · split at h
        · cases v with
          | num n => rw [← Option.some.inj h]; simpa using h0
          | null => rw [← Option.some.inj h]; exact h0
          | bool b => simp at h
          | str s => simp at h
          | arr xs => simp at h
          | obj fs => simp at h
        · rw [← Option.some.inj h]; exact h0

theorem foldlM_applyField_authKey_lt :
    ∀ (fields : List (String × Json)) (sd0 sd : SessionData),
      (∀ b ∈ sd0.AuthKey, b < 256) →
      List.foldlM applyField sd0 fields = some sd →
      ∀ b ∈ sd.AuthKey, b < 256 := by
  intro fields
  induction fields with
  | nil =>
    intro sd0 sd h0 h
    simp only [List.foldlM_nil, Option.pure_def, Option.some.injEq] at h
    rw [← h]
    exact h0
  | cons kv rest ih =>
    intro sd0 sd h0 h
    rw [List.foldlM_cons] at h
    cases happ : applyField sd0 kv with
    | none => rw [happ] at h; simp at h
    | some sd1 =>
      rw [happ] at h
      simp only [Option.bind_eq_bind, Option.some_bind] at h
      obtain ⟨k, v⟩ := kv
      exact ih sd1 sd (applyField_authKey_lt h0 happ) h

/-- Session data produced by `json.Unmarshal` has a machine-byte auth
key. -/
theorem unmarshal_authKey_lt {raw : String} {sd : SessionData}
    (h : unmarshalSessionData raw = some sd) : ∀ b ∈ sd.AuthKey, b < 256 := by
  simp only [unmarshalSessionData] at h
  cases hj : parseJson raw with
  | none => rw [hj] at h; simp at h
  | some j =>
    rw [hj] at h
    simp only [Option.some_bind] at h
    cases j with
    | obj fields =>
      simp only [decodeSessionData] at h
      exact foldlM_applyField_authKey_lt fields zeroSessionData sd
        (by simp [zeroSessionData]) h
    | null => simp [decodeSessionData] at h
    | bool b => simp [decodeSessionData] at h
    | num n => simp [decodeSessionData] at h
    | str s => simp [decodeSessionData] at h
    | arr xs => simp [decodeSessionData] at h

/-- Reading back the marshalled export record recovers the session data
unchanged: the four persisted values equal the parsed ones. -/
theorem decodeSessionData_marshalExported (sd : SessionData)
    (h : ∀ b ∈ sd.AuthKey, b < 256) :
    decodeSessionData (marshalExported
      { DC := sd.DC, Addr := sd.Addr, AuthKey := sd.AuthKey, UserID := sd.UserID }) =
      some sd := by
  have hk := base64_roundtrip sd.AuthKey h
  simp only [decodeSessionData, marshalExported, List.foldlM_cons, List.foldlM_nil,
    applyField, zeroSessionData]
  simp [hk]

theorem exportSession_ok_write
    (fs : Fs) (writeOk : String → Bool) (sp ep raw : String) (sd : SessionData)
    (hread : fs sp = some raw)
    (hparse : unmarshalSessionData raw = some sd)
    (hok : (exportSession fs writeOk sp ep).1 = .ok ()) :
    (exportSession fs writeOk sp ep).2 ep =
      some (renderJsonIndent (marshalExported
        { DC := sd.DC, Addr := sd.Addr, AuthKey := sd.AuthKey, UserID := sd.UserID })) := by
  by_cases hw : writeOk ep = true
  · simp only [exportSession, hread, hparse, hw, if_true]
    simp [writeFs]
  · simp only [exportSession, hread, hparse] at hok
    rw [if_neg hw] at hok
    simp at hok

theorem exportSession_fs_cases (fs : Fs) (writeOk : String → Bool) (sp ep q : String) :
    (exportSession fs writeOk sp ep).2 q = fs q ∨
    ∃ sd : SessionData, (exportSession fs writeOk sp ep).2 q =
      some (renderJsonIndent (marshalExported
        { DC := sd.DC, Addr := sd.Addr, AuthKey := sd.AuthKey, UserID := sd.UserID })) := by
  cases hread : fs sp with
  | none => left; simp [exportSession, hread]
  | some raw =>
    cases hparse : unmarshalSessionData raw with
    | none => left; simp [exportSession, hread, hparse]
    | some sd =>
      by_cases hw : writeOk ep = true
      · by_cases hq : q = ep
        · right
          refine ⟨sd, ?_⟩
          simp [exportSession, hread, hparse, hw, writeFs, hq]
        · left
          simp [exportSession, hread, hparse, hw, writeFs, hq]
      · left
        simp [exportSession, hread, hparse, hw]

/-- C1: for every session file whose contents parse as the four-field
session record, a successful call to `exportSession` writes to the export
path the JSON document with exactly the four session-credential fields
`dc_id`, `addr`, `auth_key` and `user_id`, and `json.Unmarshal` of that
document recovers exactly the parsed record: the data-center identifier,
server address, authentication key and user identifier are persisted
unchanged. -/
theorem exportSession_persists_four_fields
    (fs : Fs) (writeOk : String → Bool) (sp ep raw : String) (sd : SessionData)
    (hread : fs sp = some raw)
    (hparse : unmarshalSessionData raw = some sd)
    (hok : (exportSession fs writeOk sp ep).1 = .ok ()) :
    (exportSession fs writeOk sp ep).2 ep =
      some (renderJsonIndent (Json.obj
        [("dc_id", Json.num sd.DC), ("addr", Json.str sd.Addr),
         ("auth_key", Json.str (base64Encode sd.AuthKey)),
         ("user_id", Json.num sd.UserID)])) ∧
    decodeSessionData (Json.obj
        [("dc_id", Json.num sd.DC), ("addr", Json.str sd.Addr),
         ("auth_key", Json.str (base64Encode sd.AuthKey)),
         ("user_id", Json.num sd.UserID)]) = some sd := by
  have h1 := exportSession_ok_write fs writeOk sp ep raw sd hread hparse hok
  have h2 := decodeSessionData_marshalExported sd (unmarshal_authKey_lt hparse)
  exact ⟨h1, h2⟩

/-- The session file contents used by the concrete witnesses. -/
def sampleSessionJson : String :=
  "\x7b\"dc_id\": 2, \"addr\": \"149.154.167.41:443\", \"auth_key\": \"AAEC\", \"user_id\": 7\x7d"

/-- A file system holding only the session file. -/
def sampleFs : Fs := fun p => if p = sessionFilePath then some sampleSessionJson else none

/-- The record `sampleSessionJson` parses to. -/
def sampleSessionData : SessionData :=
  { DC := 2, Addr := "149.154.167.41:443", AuthKey := [0, 1, 2], UserID := 7 }

/-- A write-permission map allowing every write. -/
def allowAllWrites : String → Bool := fun _ => true

/-- Witness for C1 at a concrete session file. -/
theorem exportSession_persists_four_fields_witness :
    sampleFs sessionFilePath = some sampleSessionJson ∧
    unmarshalSessionData sampleSessionJson = some sampleSessionData ∧
    (exportSession sampleFs allowAllWrites sessionFilePath sharedSessionPath).1 =
      Except.ok () ∧
    ((exportSession sampleFs allowAllWrites sessionFilePath sharedSessionPath).2
        sharedSessionPath =
      some (renderJsonIndent (Json.obj
        [("dc_id", Json.num sampleSessionData.DC),
         ("addr", Json.str sampleSessionData.Addr),
         ("auth_key", Json.str (base64Encode sampleSessionData.AuthKey)),
         ("user_id", Json.num sampleSessionData.UserID)])) ∧
     decodeSessionData (Json.obj
        [("dc_id", Json.num sampleSessionData.DC),
         ("addr", Json.str sampleSessionData.Addr),
         ("auth_key", Json.str (base64Encode sampleSessionData.AuthKey)),
         ("user_id", Json.num sampleSessionData.UserID)]) = some sampleSessionData) :=
  ⟨rfl, rfl, rfl,
    exportSession_persists_four_fields sampleFs allowAllWrites sessionFilePath
      sharedSessionPath sampleSessionJson sampleSessionData rfl rfl rfl⟩

/-- C8: `exportSession` is atomic on error — if reading the session file
fails or its contents fail to parse as the session record, it returns a
non-nil error and performs no write: the whole file system, in particular
the file at the export path, is unchanged. -/
theorem exportSession_error_atomic
    (fs : Fs) (writeOk : String → Bool) (sp ep : String)
    (h : fs sp = none ∨ ∃ raw, fs sp = some raw ∧ unmarshalSessionData raw = none) :
    (∃ msg, (exportSession fs writeOk sp ep).1 = .error msg) ∧
    (exportSession fs writeOk sp ep).2 = fs := by
  rcases h with h | ⟨raw, hread, hparse⟩
  · exact ⟨⟨"failed to read session file", by simp [exportSession, h]⟩,
      by simp [exportSession, h]⟩
  · exact ⟨⟨"failed to parse session data", by simp [exportSession, hread, hparse]⟩,
      by simp [exportSession, hread, hparse]⟩

/-- An empty file system. -/
def emptyFs : Fs := fun _ => none

/-- Witness for C8: with no session file, `exportSession` errors and
changes nothing. -/
theorem exportSession_error_atomic_witness :
    (emptyFs sessionFilePath = none ∨
      ∃ raw, emptyFs sessionFilePath = some raw ∧ unmarshalSessionData raw = none) ∧
    ((∃ msg, (exportSession emptyFs allowAllWrites sessionFilePath sharedSessionPath).1 =
        .error msg) ∧
     (exportSession emptyFs allowAllWrites sessionFilePath sharedSessionPath).2 = emptyFs) :=
  ⟨Or.inl rfl,
    exportSession_error_atomic emptyFs allowAllWrites sessionFilePath sharedSessionPath
      (Or.inl rfl)⟩

theorem precededBy_append (p q : Event → Bool) (A B : List Event) :
    precededBy p q (A ++ B) =
      (precededBy p q A && (A.any p || precededBy p q B)) := by
  induction A with
  | nil => simp [precededBy]
  | cons e A ih =>
    simp only [List.cons_append, precededBy, List.any_cons, ih]
    cases q e <;> cases p e <;> simp [ih]

theorem precededBy_of_no_q (p q : Event → Bool) (l : List Event)
    (h : l.any q = false) : precededBy p q l = true := by
  induction l with
  | nil => rfl
  | cons e l ih =>
    simp only [List.any_cons, Bool.or_eq_false_iff] at h
    simp [precededBy, h.1, ih h.2]

theorem loopEvents_mem (status : Nat → AuthResult) :
    ∀ (n i : Nat) (e : Event), e ∈ loopEvents status i n →
      e = Event.sleep 3 ∨ ∃ k, i ≤ k ∧ k < i + n ∧ e = Event.authStatus k (status k) := by
  intro n
  induction n with
  | zero => intro i e he; simp [loopEvents] at he
  | succ m ih =>
    intro i e he
    simp only [loopEvents, List.mem_cons] at he
    rcases he with rfl | rfl | he
    · exact Or.inl rfl
    · exact Or.inr ⟨i, le_rfl, by omega, rfl⟩
    · rcases ih (i + 1) e he with h | ⟨k, hk1, hk2, hk3⟩
      · exact Or.inl h
      · exact Or.inr ⟨k, by omega, by omega, hk3⟩

theorem loopEvents_no_export (status : Nat → AuthResult) (i n : Nat) :
    (loopEvents status i n).any isExportEv = false := by
  rw [List.any_eq_false]
  intro e he
  rcases loopEvents_mem status n i e he with rfl | ⟨k, _, _, rfl⟩ <;> simp [isExportEv]

theorem loopEvents_no_fatal (status : Nat → AuthResult) (i n : Nat) :
    (loopEvents status i n).any isFatalEv = false := by
  rw [List.any_eq_false]
  intro e he
  rcases loopEvents_mem status n i e he with rfl | ⟨k, _, _, rfl⟩ <;> simp [isFatalEv]

theorem loopEvents_no_status0 (status : Nat → AuthResult) :
    ∀ (n i : Nat), 1 ≤ i → (loopEvents status i n).filter isStatus0Ev = [] := by
  intro n
  induction n with
  | zero => intro i _; simp [loopEvents]
  | succ m ih =>
    intro i hi
    simp only [loopEvents, List.filter_cons]
    rw [show isStatus0Ev (Event.sleep 3) = false from rfl]
    rw [show isStatus0Ev (Event.authStatus i (status i)) = false by
      cases i with
      | zero => omega
      | succ n => rfl]
    simp only [Bool.false_eq_true, if_false]
    exact ih (i + 1) (by omega)

theorem pollLoop_some (status : Nat → AuthResult) :
    ∀ (fuel i j : Nat) (evs : List Event),
      pollLoop status fuel i = (some j, evs) →
      i ≤ j ∧ status j = .ok true ∧
      (∀ k, i ≤ k → k < j → status k ≠ .ok true) ∧
      evs = loopEvents status i (j + 1 - i) := by
  intro fuel
  induction fuel with
  | zero => intro i j evs h; simp [pollLoop] at h
  | succ m ih =>
    intro i j evs h
    simp only [pollLoop] at h
    cases hst : status i with
    | ok b =>
      cases b
      · rw [hst] at h
        simp only [Prod.mk.injEq] at h
        obtain ⟨h1, h2⟩ := h
        cases hrec : pollLoop status m (i + 1) with
        | mk r1 r2 =>
          rw [hrec] at h1 h2
          simp only at h1 h2
          rw [h1] at hrec
          obtain ⟨hij, hj, hnone, hevs⟩ := ih (i + 1) j r2 hrec
          refine ⟨by omega, hj, ?_, ?_⟩
          · intro k hk1 hk2
            rcases Nat.eq_or_lt_of_le hk1 with rfl | hk1'
            · rw [hst]; simp
            · exact hnone k hk1' hk2
          · rw [← h2, hevs]
            have : j + 1 - i = (j + 1 - (i + 1)) + 1 := by omega
            rw [this]
            simp [loopEvents, hst]
      · rw [hst] at h
        simp only [Prod.mk.injEq] at h
        obtain ⟨h1, h2⟩ := h
        cases h1
        refine ⟨le_rfl, hst, by omega, ?_⟩
        rw [← h2]
        have : i + 1 - i = 1 := by omega
        rw [this]
        simp [loopEvents, hst]
    | err =>
      rw [hst] at h
      simp only [Prod.mk.injEq] at h
      obtain ⟨h1, h2⟩ := h
      cases hrec : pollLoop status m (i + 1) with
      | mk r1 r2 =>
        rw [hrec] at h1 h2
        simp only at h1 h2
        rw [h1] at hrec
        obtain ⟨hij, hj, hnone, hevs⟩ := ih (i + 1) j r2 hrec
        refine ⟨by omega, hj, ?_, ?_⟩
        · intro k hk1 hk2
          rcases Nat.eq_or_lt_of_le hk1 with rfl | hk1'
          · rw [hst]; simp
          · exact hnone k hk1' hk2
        · rw [← h2, hevs]
          have : j + 1 - i = (j + 1 - (i + 1)) + 1 := by omega
          rw [this]
          simp [loopEvents, hst]

theorem pollLoop_none (status : Nat → AuthResult) :
    ∀ (fuel i : Nat) (evs : List Event),
      pollLoop status fuel i = (none, evs) →
      evs = loopEvents status i fuel := by
  intro fuel
  induction fuel with
  | zero => intro i evs h; simp only [pollLoop, Prod.mk.injEq] at h; simp [← h.2, loopEvents]
  | succ m ih =>
    intro i evs h
    simp only [pollLoop] at h
    cases hst : status i with
    | ok b =>
      cases b
      · rw [hst] at h
        simp only [Prod.mk.injEq] at h
        obtain ⟨h1, h2⟩ := h
        cases hrec : pollLoop status m (i + 1) with
        | mk r1 r2 =>
          rw [hrec] at h1 h2
          simp only at h1 h2
          rw [h1] at hrec
          rw [← h2, ih (i + 1) r2 hrec]
          simp [loopEvents, hst]
      · rw [hst] at h
        simp at h
    | err =>
      rw [hst] at h
      simp only [Prod.mk.injEq] at h
      obtain ⟨h1, h2⟩ := h
      cases hrec : pollLoop status m (i + 1) with
      | mk r1 r2 =>
        rw [hrec] at h1 h2
        simp only at h1 h2
        rw [h1] at hrec
        rw [← h2, ih (i + 1) r2 hrec]
        simp [loopEvents, hst]

theorem exportCount_append (A B : List Event) :
    exportCount (A ++ B) = exportCount A + exportCount B := by
  simp [exportCount, List.filter_append]

theorem exportCount_eq_zero (l : List Event) (h : l.any isExportEv = false) :
    exportCount l = 0 := by
  induction l with
  | nil => rfl
  | cons e l ih =>
    simp only [List.any_cons, Bool.or_eq_false_iff] at h
    simp only [exportCount, List.filter_cons, h.1, Bool.false_eq_true, if_false]
    exact ih h.2

theorem loopEvents_mem_authStatus (status : Nat → AuthResult) :
    ∀ (n i k : Nat), i ≤ k → k < i + n →
      Event.authStatus k (status k) ∈ loopEvents status i n := by
  intro n
  induction n with
  | zero => intro i k h1 h2; omega
  | succ m ih =>
    intro i k h1 h2
    simp only [loopEvents, List.mem_cons]
    rcases Nat.eq_or_lt_of_le h1 with rfl | hlt
    · exact Or.inr (Or.inl rfl)
    · exact Or.inr (Or.inr (ih (i + 1) k hlt (by omega)))

theorem pollLoop_evs_okTrue (status : Nat → AuthResult) (fuel i j : Nat)
    (evs : List Event) (h : pollLoop status fuel i = (some j, evs)) :
    evs.any isOkTrueStatus = true := by
  obtain ⟨hij, hj, _, hevs⟩ := pollLoop_some status fuel i j evs h
  rw [hevs, List.any_eq_true]
  refine ⟨Event.authStatus j (status j),
    loopEvents_mem_authStatus status (j + 1 - i) i j hij (by omega), ?_⟩
  rw [hj]
  rfl

theorem exportAndFinish_trace (w : World) (fs0 : Fs) (pre : List Event) :
    ∃ wl fl, (exportAndFinish w fs0 pre).1 =
        pre ++ [Event.callExport sessionFilePath sharedSessionPath] ++ wl ++ fl ∧
      (wl = [] ∨ wl = [Event.warnExportFailed]) ∧
      ((w.selfOk = true ∧ fl = [Event.fetchSelf true, Event.waitForever]) ∨
       (w.selfOk = false ∧
        fl = [Event.fetchSelf false, Event.fatal "Telegram client run failed"])) ∧
      (exportAndFinish w fs0 pre).2 =
        (exportSession fs0 w.writeOk sessionFilePath sharedSessionPath).2 := by
  cases hr : (exportSession fs0 w.writeOk sessionFilePath sharedSessionPath).1 with
  | ok u =>
    by_cases hs : w.selfOk
    · refine ⟨[], [Event.fetchSelf true, Event.waitForever], ?_, Or.inl rfl,
        Or.inl ⟨hs, rfl⟩, ?_⟩ <;> simp [exportAndFinish, hr, hs]
    · refine ⟨[], [Event.fetchSelf false, Event.fatal "Telegram client run failed"], ?_,
        Or.inl rfl, Or.inr ⟨by simpa using hs, rfl⟩, ?_⟩ <;>
        simp [exportAndFinish, hr, hs]
  | error msg =>
    by_cases hs : w.selfOk
    · refine ⟨[Event.warnExportFailed], [Event.fetchSelf true, Event.waitForever], ?_,
        Or.inr rfl, Or.inl ⟨hs, rfl⟩, ?_⟩ <;> simp [exportAndFinish, hr, hs]
    · refine ⟨[Event.warnExportFailed],
        [Event.fetchSelf false, Event.fatal "Telegram client run failed"], ?_,
        Or.inr rfl, Or.inr ⟨by simpa using hs, rfl⟩, ?_⟩ <;>
        simp [exportAndFinish, hr, hs]

/-- The three events preceding the authorization branch once validation
and directory creation have succeeded. -/
def preBranch : List Event :=
  [Event.loadConfig configPath true, Event.mkdirStore, Event.createClient]

theorem runMain_cases (w : World) (fuel : Nat) :
    (w.ini configPath = none ∧
      runMain w fuel =
        ([Event.loadConfig configPath false, Event.fatal "Failed to load config"], w.fs)) ∨
    (∃ cfg, w.ini configPath = some cfg ∧ parseGoInt cfg.api_id = none ∧
      runMain w fuel =
        ([Event.loadConfig configPath true, Event.fatal "Invalid api_id"], w.fs)) ∨
    (∃ cfg n, w.ini configPath = some cfg ∧ parseGoInt cfg.api_id = some n ∧
      (cfg.api_hash = "" ∨ n = 0) ∧
      runMain w fuel =
        ([Event.loadConfig configPath true,
          Event.fatal "api_id and api_hash must be set in config.ini"], w.fs)) ∨
    (∃ cfg n, w.ini configPath = some cfg ∧ parseGoInt cfg.api_id = some n ∧
      ¬(cfg.api_hash = "" ∨ n = 0) ∧ w.mkdirOk = false ∧
      runMain w fuel =
        ([Event.loadConfig configPath true,
          Event.fatal "Failed to create session directory"], w.fs)) ∨
    (∃ cfg n, w.ini configPath = some cfg ∧ parseGoInt cfg.api_id = some n ∧
      ¬(cfg.api_hash = "" ∨ n = 0) ∧ w.mkdirOk = true ∧ w.status 0 = .err ∧
      runMain w fuel =
        (preBranch ++ [Event.authStatus 0 .err,
          Event.fatal "Telegram client run failed"], w.fs)) ∨
    (∃ cfg n, w.ini configPath = some cfg ∧ parseGoInt cfg.api_id = some n ∧
      ¬(cfg.api_hash = "" ∨ n = 0) ∧ w.mkdirOk = true ∧ w.status 0 = .ok true ∧
      runMain w fuel =
        exportAndFinish w w.fs (preBranch ++ [Event.authStatus 0 (.ok true)])) ∨
    (∃ cfg n, w.ini configPath = some cfg ∧ parseGoInt cfg.api_id = some n ∧
      ¬(cfg.api_hash = "" ∨ n = 0) ∧ w.mkdirOk = true ∧ w.status 0 = .ok false ∧
      runMain w fuel =
        unauthorizedBranch w fuel (preBranch ++ [Event.authStatus 0 (.ok false)])) := by
  cases hini : w.ini configPath with
  | none =>
    left
    exact ⟨rfl, by simp [runMain, hini]⟩
  | some cfg =>
    cases hp : parseGoInt cfg.api_id with
    | none =>
      right; left
      exact ⟨cfg, rfl, hp, by simp [runMain, hini, hp]⟩
    | some n =>
      by_cases hv : cfg.api_hash = "" ∨ n = 0
      · right; right; left
        refine ⟨cfg, n, rfl, hp, hv, ?_⟩
        simp only [runMain, hini, hp]
        rw [if_pos hv]
        rfl
      · cases hmk : w.mkdirOk with
        | false =>
          right; right; right; left
          refine ⟨cfg, n, rfl, hp, hv, rfl, ?_⟩
          simp only [runMain, hini, hp]
          rw [if_neg hv, hmk]
          rfl
        | true =>
          cases hst : w.status 0 with
          | err =>
            right; right; right; right; left
            refine ⟨cfg, n, rfl, hp, hv, rfl, rfl, ?_⟩
            simp only [runMain, hini, hp]
            rw [if_neg hv, hmk, hst]
            rfl
          | ok b =>
            cases b
            · right; right; right; right; right; right
              refine ⟨cfg, n, rfl, hp, hv, rfl, rfl, ?_⟩
              simp only [runMain, hini, hp]
              rw [if_neg hv, hmk, hst]
              rfl
            · right; right; right; right; right; left
              refine ⟨cfg, n, rfl, hp, hv, rfl, rfl, ?_⟩
              simp only [runMain, hini, hp]
              rw [if_neg hv, hmk, hst]
              rfl

theorem unauthorizedBranch_trace (w : World) (fuel : Nat) (pre : List Event) :
    (∃ evs, pollLoop w.status fuel 1 = (none, evs) ∧
      unauthorizedBranch w fuel pre = (pre ++ [Event.writeQR] ++ evs, qrFs w)) ∨
    (∃ j evs, pollLoop w.status fuel 1 = (some j, evs) ∧
      unauthorizedBranch w fuel pre =
        exportAndFinish w (qrFs w) (pre ++ [Event.writeQR] ++ evs)) := by
  cases hpoll : pollLoop w.status fuel 1 with
  | mk r evs =>
    cases r with
    | none => exact Or.inl ⟨evs, rfl, by simp [unauthorizedBranch, hpoll]⟩
    | some j => exact Or.inr ⟨j, evs, rfl, by simp [unauthorizedBranch, hpoll]⟩

theorem exportAndFinish_precededBy (w : World) (fs0 : Fs) (pre : List Event)
    (hpre : precededBy isOkTrueStatus isExportEv pre = true)
    (hany : pre.any isOkTrueStatus = true) :
    precededBy isOkTrueStatus isExportEv (exportAndFinish w fs0 pre).1 = true := by
  obtain ⟨wl, fl, htr, _, _, _⟩ := exportAndFinish_trace w fs0 pre
  rw [htr]
  simp only [List.append_assoc]
  rw [precededBy_append]
  simp [hpre, hany]

theorem runMain_export_after_auth (w : World) (fuel : Nat) :
    precededBy isOkTrueStatus isExportEv (runMain w fuel).1 = true := by
  rcases runMain_cases w fuel with
    ⟨_, hrun⟩ | ⟨cfg, _, _, hrun⟩ | ⟨cfg, n, _, _, _, hrun⟩ |
    ⟨cfg, n, _, _, _, _, hrun⟩ | ⟨cfg, n, _, _, _, _, _, hrun⟩ |
    ⟨cfg, n, _, _, _, _, _, hrun⟩ | ⟨cfg, n, _, _, _, _, _, hrun⟩
  · rw [hrun]; rfl
  · rw [hrun]; rfl
  · rw [hrun]; rfl
  · rw [hrun]; rfl
  · rw [hrun]; rfl
  · -- authorized branch
    rw [hrun]
    exact exportAndFinish_precededBy w w.fs _ (by rfl) (by rfl)
  · -- unauthorized branch
    rw [hrun]
    rcases unauthorizedBranch_trace w fuel (preBranch ++ [Event.authStatus 0 (.ok false)])
      with ⟨evs, hpoll, hbr⟩ | ⟨j, evs, hpoll, hbr⟩
    · rw [hbr]
      refine precededBy_of_no_q _ _ _ ?_
      obtain hevs := pollLoop_none w.status fuel 1 evs hpoll
      subst hevs
      simp [List.any_append, loopEvents_no_export, preBranch, isExportEv]
    · rw [hbr]
      refine exportAndFinish_precededBy w (qrFs w) _ ?_ ?_
      · refine precededBy_of_no_q _ _ _ ?_
        obtain ⟨_, _, _, hevs⟩ := pollLoop_some w.status fuel 1 j evs hpoll
        subst hevs
        simp [List.any_append, loopEvents_no_export, preBranch, isExportEv]
      · simp only [List.any_append]
        rw [pollLoop_evs_okTrue w.status fuel 1 j evs hpoll]
        simp

theorem precededBy_append_left (p q : Event → Bool) (A B : List Event)
    (hA : precededBy p q A = true) (hAny : A.any p = true) :
    precededBy p q (A ++ B) = true := by
  rw [precededBy_append]
  simp [hA, hAny]

theorem runMain_head (w : World) (fuel : Nat) :
    (runMain w fuel).1.head? =
      some (Event.loadConfig configPath (w.ini configPath).isSome) := by
  rcases runMain_cases w fuel with
    ⟨hini, hrun⟩ | ⟨cfg, hini, _, hrun⟩ | ⟨cfg, n, hini, _, _, hrun⟩ |
    ⟨cfg, n, hini, _, _, _, hrun⟩ | ⟨cfg, n, hini, _, _, _, _, hrun⟩ |
    ⟨cfg, n, hini, _, _, _, _, hrun⟩ | ⟨cfg, n, hini, _, _, _, _, hrun⟩
  · rw [hrun, hini]; rfl
  · rw [hrun, hini]; rfl
  · rw [hrun, hini]; rfl
  · rw [hrun, hini]; rfl
  · rw [hrun, hini]; rfl
  · rw [hrun, hini]
    obtain ⟨wl, fl, htr, _, _, _⟩ :=
      exportAndFinish_trace w w.fs (preBranch ++ [Event.authStatus 0 (.ok true)])
    rw [htr]
    rfl
  · rw [hrun, hini]
    rcases unauthorizedBranch_trace w fuel (preBranch ++ [Event.authStatus 0 (.ok false)])
      with ⟨evs, _, hbr⟩ | ⟨j, evs, _, hbr⟩
    · rw [hbr]; rfl
    · rw [hbr]
      obtain ⟨wl, fl, htr, _, _, _⟩ :=
        exportAndFinish_trace w (qrFs w)
          (preBranch ++ [Event.authStatus 0 (.ok false)] ++ [Event.writeQR] ++ evs)
      rw [htr]
      rfl

theorem runMain_store_before_status (w : World) (fuel : Nat) :
    precededBy isMkdirEv isStatusEv (runMain w fuel).1 = true := by
  rcases runMain_cases w fuel with
    ⟨_, hrun⟩ | ⟨cfg, _, _, hrun⟩ | ⟨cfg, n, _, _, _, hrun⟩ |
    ⟨cfg, n, _, _, _, _, hrun⟩ | ⟨cfg, n, _, _, _, _, _, hrun⟩ |
    ⟨cfg, n, _, _, _, _, _, hrun⟩ | ⟨cfg, n, _, _, _, _, _, hrun⟩
  · rw [hrun]; rfl
  · rw [hrun]; rfl
  · rw [hrun]; rfl
  · rw [hrun]; rfl
  · rw [hrun]; rfl
  · rw [hrun]
    obtain ⟨wl, fl, htr, _, _, _⟩ :=
      exportAndFinish_trace w w.fs (preBranch ++ [Event.authStatus 0 (.ok true)])
    rw [htr]
    simp only [List.append_assoc]
    exact precededBy_append_left _ _ preBranch _ (by rfl) (by rfl)
  · rw [hrun]
    rcases unauthorizedBranch_trace w fuel (preBranch ++ [Event.authStatus 0 (.ok false)])
      with ⟨evs, _, hbr⟩ | ⟨j, evs, _, hbr⟩
    · rw [hbr]
      simp only [List.append_assoc]
      exact precededBy_append_left _ _ preBranch _ (by rfl) (by rfl)
    · rw [hbr]
      obtain ⟨wl, fl, htr, _, _, _⟩ :=
        exportAndFinish_trace w (qrFs w)
          (preBranch ++ [Event.authStatus 0 (.ok false)] ++ [Event.writeQR] ++ evs)
      rw [htr]
      simp only [List.append_assoc]
      exact precededBy_append_left _ _ preBranch _ (by rfl) (by rfl)

theorem runMain_status0_once (w : World) (fuel : Nat) :
    ((runMain w fuel).1.filter isStatus0Ev).length ≤ 1 := by
  rcases runMain_cases w fuel with
    ⟨_, hrun⟩ | ⟨cfg, _, _, hrun⟩ | ⟨cfg, n, _, _, _, hrun⟩ |
    ⟨cfg, n, _, _, _, _, hrun⟩ | ⟨cfg, n, _, _, _, _, _, hrun⟩ |
    ⟨cfg, n, _, _, _, _, _, hrun⟩ | ⟨cfg, n, _, _, _, _, _, hrun⟩
  · rw [hrun]; simp [isStatus0Ev]
  · rw [hrun]; simp [isStatus0Ev]
  · rw [hrun]; simp [isStatus0Ev]
  · rw [hrun]; simp [isStatus0Ev]
  · rw [hrun]; simp [isStatus0Ev, preBranch]
  · rw [hrun]
    obtain ⟨wl, fl, htr, hwl, hfl, _⟩ :=
      exportAndFinish_trace w w.fs (preBranch ++ [Event.authStatus 0 (.ok true)])
    rw [htr]
    rcases hwl with rfl | rfl <;> rcases hfl with ⟨_, rfl⟩ | ⟨_, rfl⟩ <;> decide
  · rw [hrun]
    rcases unauthorizedBranch_trace w fuel (preBranch ++ [Event.authStatus 0 (.ok false)])
      with ⟨evs, hpoll, hbr⟩ | ⟨j, evs, hpoll, hbr⟩
    · rw [hbr]
      obtain hevs := pollLoop_none w.status fuel 1 evs hpoll
      subst hevs
      simp only [List.filter_append, List.length_append,
        loopEvents_no_status0 w.status fuel 1 (by omega), List.length_nil]
      decide
    · rw [hbr]
      obtain ⟨wl, fl, htr, hwl, hfl, _⟩ :=
        exportAndFinish_trace w (qrFs w)
          (preBranch ++ [Event.authStatus 0 (.ok false)] ++ [Event.writeQR] ++ evs)
      rw [htr]
      obtain ⟨_, _, _, hevs⟩ := pollLoop_some w.status fuel 1 j evs hpoll
      subst hevs
      rcases hwl with rfl | rfl <;> rcases hfl with ⟨_, rfl⟩ | ⟨_, rfl⟩ <;>
        · simp only [List.filter_append, List.length_append,
            loopEvents_no_status0 w.status (j + 1 - 1) 1 (by omega), List.length_nil]
          decide

theorem exportCount_loopEvents (status : Nat → AuthResult) (i n : Nat) :
    exportCount (loopEvents status i n) = 0 :=
  exportCount_eq_zero _ (loopEvents_no_export status i n)

theorem runMain_export_once (w : World) (fuel : Nat) (h : BranchCompleted w fuel) :
    exportCount (runMain w fuel).1 = 1 := by
  obtain ⟨⟨cfg0, n0, hini0, hp0, hv0⟩, hmk0, hbr0⟩ := h
  rcases runMain_cases w fuel with
    ⟨hini, hrun⟩ | ⟨cfg, hini, hp, hrun⟩ | ⟨cfg, n, hini, hp, hv, hrun⟩ |
    ⟨cfg, n, hini, hp, hv, hmk, hrun⟩ | ⟨cfg, n, hini, hp, hv, hmk, hst, hrun⟩ |
    ⟨cfg, n, hini, hp, hv, hmk, hst, hrun⟩ | ⟨cfg, n, hini, hp, hv, hmk, hst, hrun⟩
  · rw [hini] at hini0; simp at hini0
  · rw [hini] at hini0
    obtain rfl := Option.some.inj hini0
    rw [hp] at hp0; simp at hp0
  · rw [hini] at hini0
    obtain rfl := Option.some.inj hini0
    rw [hp] at hp0
    obtain rfl := Option.some.inj hp0
    exact absurd hv hv0
  · rw [hmk] at hmk0; simp at hmk0
  · rcases hbr0 with hbr0 | ⟨hbr0, _⟩ <;> rw [hst] at hbr0 <;> simp at hbr0
  · rw [hrun]
    obtain ⟨wl, fl, htr, hwl, hfl, _⟩ :=
      exportAndFinish_trace w w.fs (preBranch ++ [Event.authStatus 0 (.ok true)])
    rw [htr]
    rcases hwl with rfl | rfl <;> rcases hfl with ⟨_, rfl⟩ | ⟨_, rfl⟩ <;> decide
  · rcases hbr0 with hbr0 | ⟨_, hsome⟩
    · rw [hst] at hbr0; simp at hbr0
    · rcases unauthorizedBranch_trace w fuel (preBranch ++ [Event.authStatus 0 (.ok false)])
        with ⟨evs, hpoll, hbr⟩ | ⟨j, evs, hpoll, hbr⟩
      · rw [hpoll] at hsome; simp at hsome
      · rw [hrun, hbr]
        obtain ⟨wl, fl, htr, hwl, hfl, _⟩ :=
          exportAndFinish_trace w (qrFs w)
            (preBranch ++ [Event.authStatus 0 (.ok false)] ++ [Event.writeQR] ++ evs)
        rw [htr]
        obtain ⟨_, _, _, hevs⟩ := pollLoop_some w.status fuel 1 j evs hpoll
        subst hevs
        rcases hwl with rfl | rfl <;> rcases hfl with ⟨_, rfl⟩ | ⟨_, rfl⟩ <;>
          · simp only [exportCount_append, exportCount_loopEvents]
            decide

theorem runMain_authorized_immediate (w : World) (fuel : Nat)
    (hcfg : ConfigOk w) (hmk : w.mkdirOk = true) (hst : w.status 0 = .ok true) :
    [Event.authStatus 0 (.ok true),
     Event.callExport sessionFilePath sharedSessionPath] <:+: (runMain w fuel).1 := by
  obtain ⟨cfg0, n0, hini0, hp0, hv0⟩ := hcfg
  rcases runMain_cases w fuel with
    ⟨hini, hrun⟩ | ⟨cfg, hini, hp, hrun⟩ | ⟨cfg, n, hini, hp, hv, hrun⟩ |
    ⟨cfg, n, hini, hp, hv, hmk1, hrun⟩ | ⟨cfg, n, hini, hp, hv, hmk1, hst1, hrun⟩ |
    ⟨cfg, n, hini, hp, hv, hmk1, hst1, hrun⟩ | ⟨cfg, n, hini, hp, hv, hmk1, hst1, hrun⟩
  · rw [hini] at hini0; simp at hini0
  · rw [hini] at hini0
    obtain rfl := Option.some.inj hini0
    rw [hp] at hp0; simp at hp0
  · rw [hini] at hini0
    obtain rfl := Option.some.inj hini0
    rw [hp] at hp0
    obtain rfl := Option.some.inj hp0
    exact absurd hv hv0
  · rw [hmk] at hmk1; simp at hmk1
  · rw [hst] at hst1; simp at hst1
  · rw [hrun]
    obtain ⟨wl, fl, htr, hwl, hfl, _⟩ :=
      exportAndFinish_trace w w.fs (preBranch ++ [Event.authStatus 0 (.ok true)])
    refine ⟨preBranch, wl ++ fl, ?_⟩
    rw [htr]
    simp [preBranch, List.append_assoc]
  · rw [hst] at hst1; simp at hst1

/-- C2: every run loads the configuration first, opens the session store
before any status query, queries the pre-branch authentication state at
most once (exactly once when it is reached), calls the export only after
an authorized status has been observed, exports exactly once per run that
completes the branch, and in the authorized branch exports immediately
after the initial query. -/
theorem main_linear_flow (w : World) (fuel : Nat) :
    (runMain w fuel).1.head? =
      some (Event.loadConfig configPath (w.ini configPath).isSome) ∧
    precededBy isMkdirEv isStatusEv (runMain w fuel).1 = true ∧
    ((runMain w fuel).1.filter isStatus0Ev).length ≤ 1 ∧
    precededBy isOkTrueStatus isExportEv (runMain w fuel).1 = true ∧
    (BranchCompleted w fuel → exportCount (runMain w fuel).1 = 1) ∧
    (ConfigOk w → w.mkdirOk = true → w.status 0 = .ok true →
      [Event.authStatus 0 (.ok true),
       Event.callExport sessionFilePath sharedSessionPath] <:+: (runMain w fuel).1) :=
  ⟨runMain_head w fuel, runMain_store_before_status w fuel, runMain_status0_once w fuel,
   runMain_export_after_auth w fuel, runMain_export_once w fuel,
   runMain_authorized_immediate w fuel⟩

/-- A configuration accepted by the validation of main.go lines 43-54. -/
def sampleConfig : Config := { api_id := "123", api_hash := "hash" }

/-- A world whose initial auth status is authorized and in which every
step succeeds. -/
def sampleWorldAuthorized : World :=
  { ini := fun p => if p = configPath then some sampleConfig else none,
    mkdirOk := true,
    status := fun _ => .ok true,
    fs := sampleFs,
    writeOk := allowAllWrites,
    selfOk := true }

/-- Witness for C2 at a concrete world. -/
theorem main_linear_flow_witness :
    BranchCompleted sampleWorldAuthorized 1 ∧
    exportCount (runMain sampleWorldAuthorized 1).1 = 1 ∧
    [Event.authStatus 0 (.ok true),
     Event.callExport sessionFilePath sharedSessionPath] <:+:
      (runMain sampleWorldAuthorized 1).1 := by
  have hcfg : ConfigOk sampleWorldAuthorized :=
    ⟨sampleConfig, 123, rfl, by decide, by decide⟩
  have hbc : BranchCompleted sampleWorldAuthorized 1 := ⟨hcfg, rfl, Or.inl rfl⟩
  exact ⟨hbc, (main_linear_flow sampleWorldAuthorized 1).2.2.2.2.1 hbc,
    (main_linear_flow sampleWorldAuthorized 1).2.2.2.2.2 hcfg rfl rfl⟩

/-- C3: the authorization polling loop is the program's only retry
mechanism — each modelled iteration sleeps 3 seconds and queries the
status once; the loop continues past errors and unauthorized statuses and
exits exactly at the first authorized one; and in every run an export
event can only occur after an authorized status was observed. -/
theorem pollLoop_only_recovery (w : World) (fuel : Nat) (j : Nat) (evs : List Event)
    (h : pollLoop w.status fuel 1 = (some j, evs)) :
    1 ≤ j ∧ w.status j = .ok true ∧
    (∀ k, 1 ≤ k → k < j → w.status k ≠ .ok true) ∧
    evs = loopEvents w.status 1 (j + 1 - 1) ∧
    precededBy isOkTrueStatus isExportEv (runMain w fuel).1 = true := by
  obtain ⟨h1, h2, h3, h4⟩ := pollLoop_some w.status fuel 1 j evs h
  exact ⟨h1, h2, h3, h4, runMain_export_after_auth w fuel⟩

/-- A world in which the loop sees one error before authorization. -/
def sampleWorldPolling : World :=
  { ini := fun p => if p = configPath then some sampleConfig else none,
    mkdirOk := true,
    status := fun n => if n = 0 then .ok false else if n = 1 then .err else .ok true,
    fs := sampleFs,
    writeOk := allowAllWrites,
    selfOk := true }

/-- Witness for C3 at a concrete status stream. -/
theorem pollLoop_only_recovery_witness :
    pollLoop sampleWorldPolling.status 10 1 =
      (some 2, [Event.sleep 3, Event.authStatus 1 .err,
                Event.sleep 3, Event.authStatus 2 (.ok true)]) ∧
    (1 ≤ 2 ∧ sampleWorldPolling.status 2 = .ok true ∧
     (∀ k, 1 ≤ k → k < 2 → sampleWorldPolling.status k ≠ .ok true) ∧
     [Event.sleep 3, Event.authStatus 1 .err,
      Event.sleep 3, Event.authStatus 2 (.ok true)] =
       loopEvents sampleWorldPolling.status 1 (2 + 1 - 1) ∧
     precededBy isOkTrueStatus isExportEv (runMain sampleWorldPolling 10).1 = true) :=
  ⟨rfl, pollLoop_only_recovery sampleWorldPolling 10 2
    [Event.sleep 3, Event.authStatus 1 .err,
     Event.sleep 3, Event.authStatus 2 (.ok true)] rfl⟩

/-- The QR image path differs from the export path. -/
theorem shared_ne_qr : sharedSessionPath ≠ qrCodePath := by decide

theorem qrFs_shared (w : World) :
    qrFs w sharedSessionPath = w.fs sharedSessionPath := by
  by_cases hw : w.writeOk qrCodePath = true
  · simp [qrFs, hw, writeFs, if_neg shared_ne_qr]
  · simp [qrFs, hw]

/-- C4: the export file, if written at all, contains a JSON document —
after any run, the file at the shared session path either is unchanged or
holds exactly the `MarshalIndent` serialization of a four-field exported
record. -/
theorem export_file_valid_json (w : World) (fuel : Nat) :
    (runMain w fuel).2 sharedSessionPath = w.fs sharedSessionPath ∨
    ∃ sd : SessionData, (runMain w fuel).2 sharedSessionPath =
      some (renderJsonIndent (marshalExported
        { DC := sd.DC, Addr := sd.Addr, AuthKey := sd.AuthKey, UserID := sd.UserID })) := by
  rcases runMain_cases w fuel with
    ⟨_, hrun⟩ | ⟨cfg, _, _, hrun⟩ | ⟨cfg, n, _, _, _, hrun⟩ |
    ⟨cfg, n, _, _, _, _, hrun⟩ | ⟨cfg, n, _, _, _, _, _, hrun⟩ |
    ⟨cfg, n, _, _, _, _, _, hrun⟩ | ⟨cfg, n, _, _, _, _, _, hrun⟩
  · rw [hrun]; left; rfl
  · rw [hrun]; left; rfl
  · rw [hrun]; left; rfl
  · rw [hrun]; left; rfl
  · rw [hrun]; left; rfl
  · rw [hrun]
    obtain ⟨wl, fl, _, _, _, hfs⟩ :=
      exportAndFinish_trace w w.fs (preBranch ++ [Event.authStatus 0 (.ok true)])
    rw [hfs]
    exact exportSession_fs_cases w.fs w.writeOk sessionFilePath sharedSessionPath
      sharedSessionPath
  · rw [hrun]
    rcases unauthorizedBranch_trace w fuel (preBranch ++ [Event.authStatus 0 (.ok false)])
      with ⟨evs, _, hbr⟩ | ⟨j, evs, _, hbr⟩
    · rw [hbr]
      left
      exact qrFs_shared w
    · rw [hbr]
      obtain ⟨wl, fl, _, _, _, hfs⟩ :=
        exportAndFinish_trace w (qrFs w)
          (preBranch ++ [Event.authStatus 0 (.ok false)] ++ [Event.writeQR] ++ evs)
      rw [hfs]
      rcases exportSession_fs_cases (qrFs w) w.writeOk sessionFilePath sharedSessionPath
        sharedSessionPath with hc | hc
      · left
        rw [hc]
        exact qrFs_shared w
      · right
        exact hc

/-- C7: if the loaded configuration has an empty `api_hash`, or an
`api_id` that fails to scan as an integer or scans to 0, the run
terminates fatally during configuration validation: the trace ends in a
fatal event and neither the session directory nor the session storage and
Telegram client are ever created. -/
theorem config_validation_fatal (w : World) (fuel : Nat) (cfg : Config)
    (hini : w.ini configPath = some cfg)
    (hbad : cfg.api_hash = "" ∨ parseGoInt cfg.api_id = none ∨
      parseGoInt cfg.api_id = some 0) :
    (∃ msg, ((runMain w fuel).1).getLast? = some (Event.fatal msg)) ∧
    Event.mkdirStore ∉ (runMain w fuel).1 ∧
    Event.createClient ∉ (runMain w fuel).1 := by
  rcases runMain_cases w fuel with
    ⟨hini1, hrun⟩ | ⟨cfg1, hini1, hp1, hrun⟩ | ⟨cfg1, n1, hini1, hp1, hv1, hrun⟩ |
    ⟨cfg1, n1, hini1, hp1, hv1, _, hrun⟩ | ⟨cfg1, n1, hini1, hp1, hv1, _, _, hrun⟩ |
    ⟨cfg1, n1, hini1, hp1, hv1, _, _, hrun⟩ | ⟨cfg1, n1, hini1, hp1, hv1, _, _, hrun⟩
  · rw [hini] at hini1; simp at hini1
  · rw [hrun]
    exact ⟨⟨"Invalid api_id", rfl⟩, by simp, by simp⟩
  · rw [hrun]
    exact ⟨⟨"api_id and api_hash must be set in config.ini", rfl⟩, by simp, by simp⟩
  all_goals
    rw [hini] at hini1
    obtain rfl := Option.some.inj hini1
    rcases hbad with hb | hb | hb
    · exact absurd (Or.inl hb) hv1
    · rw [hp1] at hb; simp at hb
    · rw [hp1] at hb
      obtain rfl := Option.some.inj hb
      exact absurd (Or.inr rfl) hv1

/-- A configuration with an empty `api_hash`. -/
def badConfig : Config := { api_id := "123", api_hash := "" }

/-- A world whose configuration fails validation. -/
def sampleWorldBadConfig : World :=
  { ini := fun p => if p = configPath then some badConfig else none,
    mkdirOk := true,
    status := fun _ => .ok true,
    fs := emptyFs,
    writeOk := allowAllWrites,
    selfOk := true }

/-- Witness for C7 at a concrete invalid configuration. -/
theorem config_validation_fatal_witness :
    sampleWorldBadConfig.ini configPath = some badConfig ∧
    (badConfig.api_hash = "" ∨ parseGoInt badConfig.api_id = none ∨
      parseGoInt badConfig.api_id = some 0) ∧
    ((∃ msg, ((runMain sampleWorldBadConfig 1).1).getLast? = some (Event.fatal msg)) ∧
     Event.mkdirStore ∉ (runMain sampleWorldBadConfig 1).1 ∧
     Event.createClient ∉ (runMain sampleWorldBadConfig 1).1) :=
  ⟨rfl, Or.inl rfl,
    config_validation_fatal sampleWorldBadConfig 1 badConfig rfl (Or.inl rfl)⟩

theorem not_mem_loopEvents_fatal (status : Nat → AuthResult) (i n : Nat) (msg : String) :
    Event.fatal msg ∉ loopEvents status i n := by
  intro hmem
  rcases loopEvents_mem status n i _ hmem with h | ⟨k, _, _, h⟩ <;> simp at h

theorem not_mem_loopEvents_warn (status : Nat → AuthResult) (i n : Nat) :
    Event.warnExportFailed ∉ loopEvents status i n := by
  intro hmem
  rcases loopEvents_mem status n i _ hmem with h | ⟨k, _, _, h⟩ <;> simp at h

theorem not_mem_loopEvents_callExport (status : Nat → AuthResult) (i n : Nat)
    (sp ep : String) : Event.callExport sp ep ∉ loopEvents status i n := by
  intro hmem
  rcases loopEvents_mem status n i _ hmem with h | ⟨k, _, _, h⟩ <;> simp at h

theorem getLast?_append_two (A : List Event) (x y : Event) :
    (A ++ [x, y]).getLast? = some y := by
  rw [show A ++ [x, y] = (A ++ [x]) ++ [y] by simp]
  simp

/-- C9: a failure of the session export is never fatal — in both branches,
whenever the run logged the export warning it still proceeds to fetch the
logged-in user, and when that fetch succeeds the run keeps running: the
trace ends blocking forever and contains no fatal event. -/
theorem export_failure_never_fatal (w : World) (fuel : Nat)
    (hwarn : Event.warnExportFailed ∈ (runMain w fuel).1) :
    Event.fetchSelf w.selfOk ∈ (runMain w fuel).1 ∧
    (w.selfOk = true →
      ((runMain w fuel).1.getLast? = some Event.waitForever ∧
       ∀ msg, Event.fatal msg ∉ (runMain w fuel).1)) := by
  rcases runMain_cases w fuel with
    ⟨_, hrun⟩ | ⟨cfg, _, _, hrun⟩ | ⟨cfg, n, _, _, _, hrun⟩ |
    ⟨cfg, n, _, _, _, _, hrun⟩ | ⟨cfg, n, _, _, _, _, _, hrun⟩ |
    ⟨cfg, n, _, _, _, _, _, hrun⟩ | ⟨cfg, n, _, _, _, _, _, hrun⟩
  · rw [hrun] at hwarn; simp at hwarn
  · rw [hrun] at hwarn; simp at hwarn
  · rw [hrun] at hwarn; simp at hwarn
  · rw [hrun] at hwarn; simp at hwarn
  · rw [hrun] at hwarn; simp [preBranch] at hwarn
  · rw [hrun] at hwarn ⊢
    obtain ⟨wl, fl, htr, hwl, hfl, _⟩ :=
      exportAndFinish_trace w w.fs (preBranch ++ [Event.authStatus 0 (.ok true)])
    rw [htr] at hwarn ⊢
    constructor
    · rcases hfl with ⟨hs, rfl⟩ | ⟨hs, rfl⟩ <;> rw [hs] <;> simp
    · intro hself
      rcases hfl with ⟨hs, rfl⟩ | ⟨hs, rfl⟩
      · refine ⟨getLast?_append_two _ _ _, ?_⟩
        intro msg hmem
        rcases hwl with rfl | rfl <;> simp [preBranch] at hmem
      · rw [hs] at hself; exact absurd hself (by simp)
  · rw [hrun] at hwarn ⊢
    rcases unauthorizedBranch_trace w fuel (preBranch ++ [Event.authStatus 0 (.ok false)])
      with ⟨evs, hpoll, hbr⟩ | ⟨j, evs, hpoll, hbr⟩
    · rw [hbr] at hwarn
      obtain hevs := pollLoop_none w.status fuel 1 evs hpoll
      subst hevs
      simp only [List.mem_append] at hwarn
      rcases hwarn with hwarn | hwarn
      · simp [preBranch] at hwarn
      · exact absurd hwarn (not_mem_loopEvents_warn w.status 1 fuel)
    · rw [hbr] at hwarn ⊢
      obtain ⟨wl, fl, htr, hwl, hfl, _⟩ :=
        exportAndFinish_trace w (qrFs w)
          (preBranch ++ [Event.authStatus 0 (.ok false)] ++ [Event.writeQR] ++ evs)
      rw [htr] at hwarn ⊢
      obtain ⟨_, _, _, hevs⟩ := pollLoop_some w.status fuel 1 j evs hpoll
      subst hevs
      constructor
      · rcases hfl with ⟨hs, rfl⟩ | ⟨hs, rfl⟩ <;> rw [hs] <;> simp
      · intro hself
        rcases hfl with ⟨hs, rfl⟩ | ⟨hs, rfl⟩
        · refine ⟨getLast?_append_two _ _ _, ?_⟩
          intro msg hmem
          rcases hwl with rfl | rfl <;>
            · simp only [List.mem_append] at hmem
              rcases hmem with ((((hm | hm) | hm) | hm) | hm) | hm <;>
                first
                | exact absurd hm (not_mem_loopEvents_fatal w.status 1 (j + 1 - 1) msg)
                | simp [preBranch] at hm
        · rw [hs] at hself; exact absurd hself (by simp)

/-- A world with no session file, so that the export fails. -/
def sampleWorldExportFails : World :=
  { ini := fun p => if p = configPath then some sampleConfig else none,
    mkdirOk := true,
    status := fun _ => .ok true,
    fs := emptyFs,
    writeOk := allowAllWrites,
    selfOk := true }

/-- Witness for C9 at a concrete world whose export fails. -/
theorem export_failure_never_fatal_witness :
    Event.warnExportFailed ∈ (runMain sampleWorldExportFails 1).1 ∧
    (Event.fetchSelf sampleWorldExportFails.selfOk ∈ (runMain sampleWorldExportFails 1).1 ∧
     (sampleWorldExportFails.selfOk = true →
       ((runMain sampleWorldExportFails 1).1.getLast? = some Event.waitForever ∧
        ∀ msg, Event.fatal msg ∉ (runMain sampleWorldExportFails 1).1))) :=
  ⟨by decide, export_failure_never_fatal sampleWorldExportFails 1 (by decide)⟩

theorem runMain_callExport_paths (w : World) (fuel : Nat) (sp ep : String)
    (h : Event.callExport sp ep ∈ (runMain w fuel).1) :
    sp = sessionFilePath ∧ ep = sharedSessionPath := by
  rcases runMain_cases w fuel with
    ⟨_, hrun⟩ | ⟨cfg, _, _, hrun⟩ | ⟨cfg, n, _, _, _, hrun⟩ |
    ⟨cfg, n, _, _, _, _, hrun⟩ | ⟨cfg, n, _, _, _, _, _, hrun⟩ |
    ⟨cfg, n, _, _, _, _, _, hrun⟩ | ⟨cfg, n, _, _, _, _, _, hrun⟩
  · rw [hrun] at h; simp at h
  · rw [hrun] at h; simp at h
  · rw [hrun] at h; simp at h
  · rw [hrun] at h; simp at h
  · rw [hrun] at h; simp [preBranch] at h
  · rw [hrun] at h
    obtain ⟨wl, fl, htr, hwl, hfl, _⟩ :=
      exportAndFinish_trace w w.fs (preBranch ++ [Event.authStatus 0 (.ok true)])
    rw [htr] at h
    rcases hwl with rfl | rfl <;> rcases hfl with ⟨_, rfl⟩ | ⟨_, rfl⟩ <;>
      · simp [preBranch, List.mem_append] at h
        exact h
  · rw [hrun] at h
    rcases unauthorizedBranch_trace w fuel (preBranch ++ [Event.authStatus 0 (.ok false)])
      with ⟨evs, hpoll, hbr⟩ | ⟨j, evs, hpoll, hbr⟩
    · rw [hbr] at h
      obtain hevs := pollLoop_none w.status fuel 1 evs hpoll
      subst hevs
      simp only [List.mem_append] at h
      rcases h with h | h
      · simp [preBranch] at h
      · exact absurd h (not_mem_loopEvents_callExport w.status 1 fuel sp ep)
    · rw [hbr] at h
      obtain ⟨wl, fl, htr, hwl, hfl, _⟩ :=
        exportAndFinish_trace w (qrFs w)
          (preBranch ++ [Event.authStatus 0 (.ok false)] ++ [Event.writeQR] ++ evs)
      rw [htr] at h
      obtain ⟨_, _, _, hevs⟩ := pollLoop_some w.status fuel 1 j evs hpoll
      subst hevs
      rcases hwl with rfl | rfl <;> rcases hfl with ⟨_, rfl⟩ | ⟨_, rfl⟩ <;>
        · simp only [List.mem_append] at h
          rcases h with ((((hm | hm) | hm) | hm) | hm) | hm <;>
            first
            | exact absurd hm (not_mem_loopEvents_callExport w.status 1 (j + 1 - 1) sp ep)
            | (simp [preBranch] at hm; exact hm)
            | simp [preBranch] at hm

/-- C5 counterexample: there are no two runs — however much their loaded
configurations differ — whose session exports go to two distinct paths;
the export path is not determined by the configuration. -/
theorem export_path_not_configured :
    ¬ ∃ (w1 w2 : World) (f1 f2 : Nat) (sp1 ep1 sp2 ep2 : String),
      w1.ini ≠ w2.ini ∧
      Event.callExport sp1 ep1 ∈ (runMain w1 f1).1 ∧
      Event.callExport sp2 ep2 ∈ (runMain w2 f2).1 ∧
      ep1 ≠ ep2 := by
  rintro ⟨w1, w2, f1, f2, sp1, ep1, sp2, ep2, _, h1, h2, hne⟩
  obtain ⟨_, he1⟩ := runMain_callExport_paths w1 f1 sp1 ep1 h1
  obtain ⟨_, he2⟩ := runMain_callExport_paths w2 f2 sp2 ep2 h2
  exact hne (he1.trans he2.symm)

/-- C5 amended: the export path is fixed — every export call in every run
writes to the constant path `store/shared_session.json` and reads the
session from `store/telegram.session`, independently of the loaded
configuration. -/
theorem export_path_fixed (w : World) (fuel : Nat) (sp ep : String)
    (h : Event.callExport sp ep ∈ (runMain w fuel).1) :
    ep = sharedSessionPath ∧ sp = sessionFilePath := by
  obtain ⟨h1, h2⟩ := runMain_callExport_paths w fuel sp ep h
  exact ⟨h2, h1⟩

/-- Witness for the amended C5 at a concrete world. -/
theorem export_path_fixed_witness :
    Event.callExport sessionFilePath sharedSessionPath ∈
      (runMain sampleWorldAuthorized 1).1 ∧
    (sharedSessionPath = sharedSessionPath ∧ sessionFilePath = sessionFilePath) :=
  ⟨by decide, export_path_fixed sampleWorldAuthorized 1 sessionFilePath
    sharedSessionPath (by decide)⟩

/-- The initial state of the C6 counterexample: the configuration file
exists only at variant A's path `telegram-bridge/config.ini`. -/
def iniOnlyA : String → Option Config :=
  fun p => if p = configPath then some sampleConfig else none

/-- C6 counterexample: the two bridge variants do not behave the same for
every initial state — with a configuration only at variant A's path,
variant A (main.go) proceeds past configuration load while variant B
(part_000) exits fatally there. -/
theorem variants_not_equivalent :
    ¬ (∀ ini : String → Option Config,
        configLoadFatalA ini = configLoadFatalB ini) :=
  fun h => absurd (h iniOnlyA) (by decide)

/-- C6 amended: the two variants are near-copies but not behaviourally
equivalent — they load their configuration from distinct paths, so on the
state with a configuration only at variant A's path, A proceeds past
configuration load while B terminates fatally. -/
theorem variants_differ :
    configPath ≠ configPathB ∧
    configLoadFatalA iniOnlyA = false ∧ configLoadFatalB iniOnlyA = true := by decide
